import Mathlib

/-!
Verification of the Helm README/schema generator (`main.go`) against its
specification.  The Go program is shallowly embedded: dynamically typed YAML
values become the inductive `YamlValue`, the `Parameter`/`Section`/`Metadata`
structs become Lean structures, and each Go function becomes a Lean function
of the same name (modulo Lean naming restrictions).  File I/O and terminal
printing are made explicit as an `Effect` list; the regex-based lexing of
comment lines is abstracted into the pre-lexed token type `SrcLine`, while the
line-oriented state machine of `parseMetadataComments` is kept intact.
-/

set_option maxRecDepth 4000

/-- Dynamically typed YAML value, mirroring Go's `interface{}` as produced by
`yaml.Unmarshal`: `null` is Go's nil interface, mappings are string-keyed
(`map[string]interface{}` modelled as an association list in document order),
`unknown` stands for any Go value not recognized by `inferType`'s switch, and
`float` carries its literal text (no claim computes with float payloads). -/
inductive YamlValue where
  | null
  | str (s : String)
  | bool (b : Bool)
  | int (n : Int)
  | float (lit : String)
  | arr (xs : List YamlValue)
  | obj (kvs : List (String × YamlValue))
  | unknown

/-- Go's `v == nil` test on an `interface{}` value. -/
def YamlValue.isNull : YamlValue → Bool
  | .null => true
  | _ => false

/-- The `Parameter` struct of `main.go`.  Go's zero value for the `Value`
field (nil interface) is `YamlValue.null`; the Go field `Type` is spelled
`type` here because `Type` is reserved in Lean. -/
structure Parameter where
  Name : String
  Description : String := ""
  Value : YamlValue := .null
  type : String := ""
  Modifiers : List String := []
  Section : String := ""
  Validate : Bool := true
  Readme : Bool := true
  Schema : Bool := true

/-- `NewParameter` from `main.go`: name set, all three flags true. -/
def NewParameter (name : String) : Parameter :=
  { Name := name, Validate := true, Readme := true, Schema := true }

/-- `(*Parameter).HasModifier`. -/
def Parameter.HasModifier (p : Parameter) (m : String) : Bool :=
  p.Modifiers.contains m

/-- `(*Parameter).SetExtra`: a no-op when the argument is false. -/
def Parameter.SetExtra (p : Parameter) (b : Bool) : Parameter :=
  if b then { p with Validate := false, Readme := true } else p

/-- `(*Parameter).Extra` getter. -/
def Parameter.Extra (p : Parameter) : Bool := !p.Validate && p.Readme

/-- `(*Parameter).SetSkip`. -/
def Parameter.SetSkip (p : Parameter) (b : Bool) : Parameter :=
  if b then { p with Validate := false, Readme := false }
  else { p with Validate := true, Readme := true }

/-- `(*Parameter).Skip` getter. -/
def Parameter.Skip (p : Parameter) : Bool := !p.Validate && !p.Readme

/-- The `Section` struct of `main.go`. -/
structure Section where
  Name : String
  DescriptionLines : List String := []
  Parameters : List Parameter := []

/-- The `Metadata` struct of `main.go`. -/
structure Metadata where
  Sections : List Section := []
  Parameters : List Parameter := []

/-- The subset of the `Config` struct consumed by the embedded functions
(tag strings are consumed by the regex lexing, which is abstracted into
`SrcLine`, but are kept for completeness). -/
structure Config where
  commentsFormat : String := "##"
  tagParam : String := "@param"
  tagSection : String := "@section"
  tagDescriptionStart : String := "@descriptionStart"
  tagDescriptionEnd : String := "@descriptionEnd"
  tagSkip : String := "@skip"
  tagExtra : String := "@extra"
  regexpParamsSectionTitle : String := "Parameters"
  modArray : String := "array"
  modObject : String := "object"
  modString : String := "string"
  modNullable : String := "nullable"
  modDefault : String := "default"

/-- `defaultConfig` from `main.go`. -/
def defaultConfig : Config := {}

/-- Go `strings.HasPrefix s pre`, computed on the character lists. -/
def hasPrefixB (s pre : String) : Bool :=
  pre.data.isPrefixOf s.data

/-- Go byte-wise `<` on strings (the orders agree on ASCII names). -/
def charListLt : List Char → List Char → Bool
  | [], [] => false
  | [], _ :: _ => true
  | _ :: _, [] => false
  | a :: as, b :: bs =>
    if a.toNat < b.toNat then true
    else if b.toNat < a.toNat then false
    else charListLt as bs

/-- String comparison used by `sort.Slice` in `createValuesObject`. -/
def strLtB (a b : String) : Bool := charListLt a.data b.data

mutual

/-- `flattenYAML` from `main.go`: nested YAML to dot-notation keys, arrays as
`key[i]`; an empty mapping/sequence with a nonempty key is itself recorded.
The Go version writes into a string-keyed map; since the relevant input trees
produce pairwise distinct paths, the map is modelled as the list of
insertions in recursion order. -/
def flattenYAML (pre : String) : YamlValue → List (String × YamlValue)
  | .obj kvs =>
    if kvs.isEmpty then (if pre ≠ "" then [(pre, .obj kvs)] else [])
    else flattenObj pre kvs
  | .arr xs =>
    if xs.isEmpty then (if pre ≠ "" then [(pre, .arr xs)] else [])
    else flattenArr pre 0 xs
  | v => [(pre, v)]

/-- Helper for the mapping branch of `flattenYAML` (range over entries). -/
def flattenObj (pre : String) : List (String × YamlValue) → List (String × YamlValue)
  | [] => []
  | (k, val) :: rest =>
    flattenYAML (if pre = "" then k else pre ++ "." ++ k) val ++ flattenObj pre rest

/-- Helper for the sequence branch of `flattenYAML` (range over elements). -/
def flattenArr (pre : String) (i : Nat) : List YamlValue → List (String × YamlValue)
  | [] => []
  | v :: rest =>
    flattenYAML (pre ++ "[" ++ toString i ++ "]") v ++ flattenArr pre (i + 1) rest

end

/-- `inferType` from `main.go`.  Note the null case yields the string `"nil"`;
`int` and `float` both collapse to `"number"` (Go cases `int, int64, float64`),
and the switch's default yields `"unknown"`. -/
def inferType : YamlValue → String
  | .null => "nil"
  | .str _ => "string"
  | .bool _ => "boolean"
  | .int _ => "number"
  | .float _ => "number"
  | .arr _ => "array"
  | .obj _ => "object"
  | .unknown => "unknown"

/-- Insertion into a name-sorted parameter list. -/
def insertByName (p : Parameter) : List Parameter → List Parameter
  | [] => [p]
  | q :: qs => if strLtB p.Name q.Name then p :: q :: qs else q :: insertByName p qs

/-- Deterministic stand-in for `sort.Slice(params, Name <)`. -/
def sortByName (l : List Parameter) : List Parameter := l.foldr insertByName []

/-- `createValuesObject` from `main.go` (file reading and YAML decoding
elided: it receives the decoded tree): flatten, build parameters with value
and inferred type, sort by name. -/
def createValuesObject (tree : YamlValue) : List Parameter :=
  sortByName ((flattenYAML "" tree).map fun pv =>
    { NewParameter pv.1 with Value := pv.2, type := inferType pv.2 })

/-- `getArrayPrefix` from `main.go` (name adjusted): the part of the path
before the first `[`, or the whole path when there is none. -/
def getArrayRoot (path : String) : String :=
  String.mk (path.data.takeWhile (fun c => c ≠ '['))

/-- `sanitizeProperty` from `main.go`. -/
def sanitizeProperty (path : String) : String :=
  if path.data.contains '[' then getArrayRoot path else path

/-- A source line of `values.yaml`, pre-lexed according to the regexes of
`parseMetadataComments` (which only inspect the comment prefix and tag
tokens): `sectionL`, `descStartL`, `descEndL`, `paramL`, `skipL`, `extraL`
are the lines matched by `regSection`, `regDescStart`, `regDescEnd`,
`regParam`, `regSkip`, `regExtra` respectively; `commentL` is any other
comment-prefixed line (matched only by `regDescContent`); `otherL` matches no
regex.  For `paramL`/`extraL`, `mods` is the bracket-stripped content of the
optional `[...]` group (empty when absent). -/
inductive SrcLine where
  | sectionL (title : String)
  | descStartL (txt : String)
  | descEndL
  | commentL (txt : String)
  | paramL (name : String) (mods : String) (desc : String)
  | skipL (name : String)
  | extraL (name : String) (mods : String) (desc : String)
  | otherL

/-- The text a line contributes when consumed by `regDescContent` while in
description mode (the capture group after the comment prefix). -/
def descTextOf : SrcLine → String
  | .commentL t => t
  | .paramL n mods d =>
    "@param " ++ n ++ (if mods = "" then "" else " [" ++ mods ++ "]") ++
      (if d = "" then "" else " " ++ d)
  | .skipL n => "@skip " ++ n
  | .extraL n mods d =>
    "@extra " ++ n ++ (if mods = "" then "" else " [" ++ mods ++ "]") ++
      (if d = "" then "" else " " ++ d)
  | _ => ""

/-- Modifier-list parsing in the `regParam` case: bracket content split on
commas, each token space-trimmed; empty content yields no modifiers. -/
def parseMods (mods : String) : List String :=
  if mods = "" then [] else (mods.splitOn ",").map String.trim

/-- Appends a description line to the current section.  In Go `current`
points at the most recently appended section (it is only assigned in the
`@section` case), so it is the last element of `Sections`; when `current` is
nil (`Sections` empty) nothing happens. -/
def addToCurrentDesc (md : Metadata) (txt : String) : Metadata :=
  match md.Sections.getLast? with
  | none => md
  | some s =>
    { md with Sections := md.Sections.dropLast ++ [{ s with DescriptionLines := s.DescriptionLines ++ [txt] }] }

/-- Appends a declared parameter: always to the global list, and — when a
section is open — with its `Section` field set and also to that (last)
section's list, mirroring the three statements shared by the `@param`,
`@skip` and `@extra` cases. -/
def addParameter (md : Metadata) (p : Parameter) : Metadata :=
  match md.Sections.getLast? with
  | none => { md with Parameters := md.Parameters ++ [p] }
  | some s =>
    let p' := { p with Section := s.Name }
    { md with
      Sections := md.Sections.dropLast ++ [{ s with Parameters := s.Parameters ++ [p'] }],
      Parameters := md.Parameters ++ [p'] }

/-- Parser state: metadata accumulated so far plus the `descriptionMode`
flag of `parseMetadataComments`. -/
structure PState where
  md : Metadata := {}
  descMode : Bool := false

/-- One iteration of the line loop of `parseMetadataComments`, following the
`switch` case order: `@section` and `@descriptionStart` are tested first
(also in description mode); in description mode `@descriptionEnd` closes the
block and every other comment-prefixed line (tag lines included, since
`regDescContent` matches any comment line) is captured as description text;
outside description mode `@param`, `@skip`, `@extra` declare parameters and
all remaining lines match no case. -/
def stepLine (st : PState) (ln : SrcLine) : PState :=
  match ln with
  | .sectionL t =>
    { md := { st.md with Sections := st.md.Sections ++ [{ Name := t }] }, descMode := false }
  | .descStartL txt =>
    { md := if txt ≠ "" then addToCurrentDesc st.md txt else st.md, descMode := true }
  | .descEndL =>
    if st.descMode then { st with descMode := false } else st
  | .commentL txt =>
    if st.descMode then { st with md := addToCurrentDesc st.md txt } else st
  | .paramL name mods desc =>
    if st.descMode then { st with md := addToCurrentDesc st.md (descTextOf ln) }
    else
      { st with md :=
          addParameter st.md { NewParameter name with Modifiers := parseMods mods, Description := desc } }
  | .skipL name =>
    if st.descMode then { st with md := addToCurrentDesc st.md (descTextOf ln) }
    else { st with md := addParameter st.md ((NewParameter name).SetSkip true) }
  | .extraL name _mods desc =>
    if st.descMode then { st with md := addToCurrentDesc st.md (descTextOf ln) }
    else
      { st with md :=
          addParameter st.md (({ NewParameter name with Description := desc, Value := .str "" }).SetExtra true) }
  | .otherL => st

/-- `parseMetadataComments` from `main.go` over the pre-lexed line list (the
`@extra` regex's modifier group is captured but never used by the Go code,
which `stepLine` mirrors). -/
def parseMetadataComments (lines : List SrcLine) : Metadata :=
  (lines.foldl stepLine {}).md

/-- The set (here: list) of names cancelling validation for themselves and
their children, built in `checkKeys`: every declared parameter that is Skip
or carries at least one modifier contributes its sanitized name. -/
def skipNamesOf (meta : List Parameter) : List String :=
  (meta.filter (fun p => p.Skip || !p.Modifiers.isEmpty)).map
    (fun p => sanitizeProperty p.Name)

/-- The `isSkipped` closure of `checkKeys`: does `name` fall under a skipped
name (equal to it, or continuing it with `.` or `[`)? -/
def isSkipped (names : List String) (name : String) : Bool :=
  names.any (fun sk =>
    name == sk || hasPrefixB name (sk ++ ".") || hasPrefixB name (sk ++ "["))

/-- The real-key list of `checkKeys`: names of actual entries that are
neither under a skipped name nor Extra. -/
def realKeysOf (real meta : List Parameter) : List String :=
  (real.filter (fun p => !(isSkipped (skipNamesOf meta) p.Name) && !p.Extra)).map
    (fun p => p.Name)

/-- The declared-key list of `checkKeys`: names of declared parameters that
are neither Extra nor under a skipped name. -/
def metaKeysOf (_real meta : List Parameter) : List String :=
  (meta.filter (fun p => !p.Extra && !(isSkipped (skipNamesOf meta) p.Name))).map
    (fun p => p.Name)

/-- `difference` from `main.go`: elements of `a` absent from `b`, in the
order of `a`. -/
def difference (a b : List String) : List String :=
  a.filter (fun x => !b.contains x)

/-- Keys present in the YAML but absent from the metadata. -/
def missingKeys (real meta : List Parameter) : List String :=
  difference (realKeysOf real meta) (metaKeysOf real meta)

/-- Keys present in the metadata but absent from the YAML. -/
def orphanKeys (real meta : List Parameter) : List String :=
  difference (metaKeysOf real meta) (realKeysOf real meta)

/-- An observable side effect of the run: a line printed to the terminal, a
rewrite of the README document, or a write of the schema file (whose JSON
text, produced by `renderOpenAPISchema`, no claim inspects). -/
inductive Effect where
  | print (s : String)
  | writeReadme (content : String)
  | writeSchema
deriving DecidableEq

/-- `checkKeys` from `main.go`: its printed lines and its result.  When both
difference lists are empty it prints a confirmation and succeeds; otherwise
it prints one line per missing key, then one per orphan key, and returns the
single aggregate error. -/
def checkKeysRes (real meta : List Parameter) : List Effect × Except String Unit :=
  let missing := missingKeys real meta
  let orphan := orphanKeys real meta
  if missing.isEmpty && orphan.isEmpty then
    ([.print "INFO: Metadata is correct!"], .ok ())
  else
    (missing.map (fun m => .print ("ERROR: Missing metadata for key: " ++ m)) ++
       orphan.map (fun o => .print ("ERROR: Metadata provided for non existing key: " ++ o)),
     .error "metadata errors found")

/-- The per-parameter effect of the first loop of `combineMetadataAndValues`,
applied in place through the `*Parameter` pointer: for a non-Extra declared
parameter, the first real entry with the same name (if any) contributes its
value (only when the parameter has none yet), its type and its schema flag. -/
def combineParam (values : List Parameter) (p : Parameter) : Parameter :=
  if p.Extra then p
  else
    match values.find? (fun src => src.Name == p.Name) with
    | some src =>
      { p with Value := if p.Value.isNull then src.Value else p.Value,
               type := src.type, Schema := src.Schema }
    | none => p

/-- The second loop of `combineMetadataAndValues`: for every real entry whose
name is absent from the (growing) metadata list, append a Skip-marked copy of
it. -/
def synthSkips (values meta1 : List Parameter) : List Parameter :=
  values.foldl
    (fun acc src =>
      if acc.any (fun p => p.Name == src.Name) then acc
      else acc ++ [src.SetSkip true])
    meta1

/-- The caller-visible result of `combineMetadataAndValues(values, meta)`.
The Go function receives the slice header `meta` by value: the first loop
mutates the pointed-to parameters, which the caller observes, but the second
loop's `meta = append(meta, &np)` reassigns only the local slice variable and
the function returns nothing — so the caller's `meta.Parameters` keeps its
original length and never contains the synthesized Skip entries. -/
def combineMetadataAndValuesCaller (values meta : List Parameter) : List Parameter :=
  meta.map (combineParam values)

/-- The final value of the local `meta` slice variable inside
`combineMetadataAndValues`, i.e. what the synthesis actually computed before
being discarded on return. -/
def combineMetadataAndValuesLocal (values meta : List Parameter) : List Parameter :=
  synthSkips values (meta.map (combineParam values))

/-- Type component of one iteration of the modifier loop of `applyModifiers`:
the `array`/`object`/`string` cases force the type (first match wins, in the
switch's case order); the `nullable` and `default:` cases leave it. -/
def modTypeStep (cfg : Config) (m : String) (t : String) : String :=
  if m == cfg.modArray then "array"
  else if m == cfg.modObject then "object"
  else if m == cfg.modString then "string"
  else t

/-- Value component of one iteration of the modifier loop of
`applyModifiers`: type-forcing cases clear the value unless `nullable` is the
last modifier; the `nullable` case installs the sentinel string "nil" when no
value is set; a `default:`-prefixed token installs its trimmed payload. -/
def modValStep (cfg : Config) (nullableLast : Bool) (m : String) (v : YamlValue) : YamlValue :=
  if m == cfg.modArray then (if !nullableLast then .arr [] else v)
  else if m == cfg.modObject then (if !nullableLast then .obj [] else v)
  else if m == cfg.modString then (if !nullableLast then .str "" else v)
  else if m == cfg.modNullable then (if v.isNull then .str "nil" else v)
  else if hasPrefixB m (cfg.modDefault ++ ":") then
    .str (String.trim (String.mk (m.data.drop (cfg.modDefault ++ ":").length)))
  else v

/-- One iteration of the modifier loop, acting on the (type, value) pair —
each `switch` case of the Go loop writes the two fields independently. -/
def applyModStep (cfg : Config) (nullableLast : Bool) (s : String × YamlValue) (m : String) :
    String × YamlValue :=
  (modTypeStep cfg m s.1, modValStep cfg nullableLast m s.2)

/-- `applyModifiers` from `main.go`: a no-op for a parameter without
modifiers; otherwise precompute whether `nullable` is the last modifier, then
fold the modifier list over the parameter's type and value. -/
def applyModifiers (p : Parameter) (cfg : Config) : Parameter :=
  if p.Modifiers.isEmpty then p
  else
    let nullableLast := p.HasModifier cfg.modNullable &&
      (p.Modifiers.getLastD "" == cfg.modNullable)
    let r := p.Modifiers.foldl (applyModStep cfg nullableLast) (p.type, p.Value)
    { p with type := r.1, Value := r.2 }

/-- `buildParamsToRender` from `main.go`: drop Skip parameters, apply the
modifier engine to the rest. -/
def buildParamsToRender (list : List Parameter) (cfg : Config) : List Parameter :=
  (list.filter (fun p => !p.Skip)).map (fun p => applyModifiers p cfg)

mutual

/-- Compact JSON serialization of a value (`json.Marshal` in the default
branch of the table's value switch). -/
def jsonMarshal : YamlValue → String
  | .null => "null"
  | .str s => "\"" ++ s ++ "\""
  | .bool b => if b then "true" else "false"
  | .int n => toString n
  | .float lit => lit
  | .arr xs => "[" ++ String.intercalate "," (jsonList xs) ++ "]"
  | .obj kvs => "\x7b" ++ String.intercalate "," (jsonKVList kvs) ++ "\x7d"
  | .unknown => "null"

/-- Serializations of the elements of a JSON array. -/
def jsonList : List YamlValue → List String
  | [] => []
  | v :: vs => jsonMarshal v :: jsonList vs

/-- Serializations of the entries of a JSON object. -/
def jsonKVList : List (String × YamlValue) → List String
  | [] => []
  | (k, v) :: kvs => ("\"" ++ k ++ "\":" ++ jsonMarshal v) :: jsonKVList kvs

end

/-- The value cell of a table row in `markdownTable`: empty for Extra
parameters; a backtick-quoted escaped empty string for the empty string; a
backtick-quoted literal for other strings; backtick-quoted compact JSON
otherwise. -/
def renderValueCell (p : Parameter) : String :=
  if p.Extra then ""
  else
    match p.Value with
    | .str s => if s = "" then "`\"\"`" else "`" ++ s ++ "`"
    | v => "`" ++ jsonMarshal v ++ "`"

/-- One data row of `markdownTable`: backtick-quoted name, description,
value cell. -/
def row3 (p : Parameter) : List String :=
  ["`" ++ p.Name ++ "`", p.Description, renderValueCell p]

/-- All rows of `markdownTable`, header first. -/
def tableRows (params : List Parameter) : List (List String) :=
  ["Name", "Description", "Value"] :: params.map row3

/-- The width array of `markdownTable`: per column, the running maximum of
the cell lengths over every row (header included), starting from zero. -/
def colWidth (rows : List (List String)) (j : Nat) : Nat :=
  rows.foldl (fun w r => max w (r.getD j "").length) 0

/-- A cell padded with spaces to the column width (`c` followed by
`w - len(c)` spaces). -/
def padCell (c : String) (w : Nat) : String :=
  c ++ String.mk (List.replicate (w - c.length) ' ')

/-- One rendered table line: each cell is wrapped as ` cell |` after a
leading pipe. -/
def renderTableLine (ws : Nat → Nat) (r : List String) : String :=
  "|" ++ String.join (r.enum.map (fun jc => " " ++ padCell jc.2 (ws jc.1) ++ " |")) ++ "\n"

/-- The separator line under the header. -/
def renderSepLine (ws : Nat → Nat) : String :=
  "|" ++ String.join ((List.range 3).map (fun j => " " ++ String.mk (List.replicate (ws j) '-') ++ " |")) ++ "\n"

/-- `markdownTable` from `main.go`: header row, separator, one row per
parameter, all padded to the per-column maximum width. -/
def markdownTable (params : List Parameter) : String :=
  let rows := tableRows params
  let ws := colWidth rows
  match rows with
  | [] => ""
  | header :: rest =>
    renderTableLine ws header ++ renderSepLine ws ++
      String.join (rest.map (renderTableLine ws))

/-- `Section.Description` from `main.go`. -/
def Section.Description (s : Section) : String :=
  String.intercalate "\r\n" s.DescriptionLines

/-- `renderSection` from `main.go`. -/
def renderSection (sec : Section) (h : String) : String :=
  (h ++ " " ++ sec.Name ++ "\n\n") ++
    (if sec.Description ≠ "" then sec.Description else "") ++
    (if !sec.Parameters.isEmpty then markdownTable sec.Parameters else "")

/-- `renderReadmeTable` from `main.go`. -/
def renderReadmeTable (secs : List Section) (h : String) : String :=
  String.join (secs.map (fun s => "\n" ++ renderSection s h))

/-- Number of leading `#` characters of a line. -/
def leadingHashes (l : String) : Nat :=
  (l.data.takeWhile (fun c => c = '#')).length

/-- Matching of the `^(##+) <title>` heading regex of `insertReadmeTable`:
at least two leading hashes immediately followed by a space and the section
title; returns the hash count. -/
def matchHeading (title : String) (l : String) : Option Nat :=
  let hs := leadingHashes l
  if hs ≥ 2 && hasPrefixB (String.mk (l.data.drop hs)) (" " ++ title) then some hs
  else none

/-- Matching of the `^#{n}\s` same-level regex: exactly reaches `n` hashes
followed by a whitespace character. -/
def matchSameLevel (n : Nat) (l : String) : Bool :=
  l.data.take n = List.replicate n '#' &&
    match l.data.drop n with
    | c :: _ => c.isWhitespace
    | [] => false

/-- Index of the first line matching the Parameters heading, with its hash
count. -/
def findHeadingIdx (title : String) : List String → Option (Nat × Nat)
  | [] => none
  | l :: rest =>
    match matchHeading title l with
    | some hs => some (0, hs)
    | none => (findHeadingIdx title rest).map (fun ih => (ih.1 + 1, ih.2))

/-- Index of the first line at or after position 0 of `ls` matching the
same-level heading regex, defaulting to the document length. -/
def findSameLevel (n : Nat) (ls : List String) : Nat :=
  match ls.findIdx? (matchSameLevel n) with
  | some i => i
  | none => ls.length

/-- `insertReadmeTable` from `main.go` (file I/O elided: takes and returns
the document's lines): find the Parameters heading, replace everything up to
the next same-level heading (or EOF) with the freshly rendered sections, one
hash level deeper than the heading. -/
def insertReadmeTable (docLines : List String) (sections : List Section) (cfg : Config) :
    Except String (List String) :=
  match findHeadingIdx cfg.regexpParamsSectionTitle docLines with
  | none => .error "could not find Parameters section in README"
  | some ih =>
    let start := ih.1 + 1
    let hPrefixStr := String.mk (List.replicate (ih.2 + 1) '#')
    let endIdx := start + findSameLevel ih.2 (docLines.drop start)
    let newTable := renderReadmeTable sections hPrefixStr
    .ok (docLines.take start ++ newTable.splitOn "\n" ++ docLines.drop endIdx)

/-- `getParsedMetadata` from `main.go` (file reading elided: takes the
decoded tree and the pre-lexed source lines), with the printed lines made
explicit: build the real parameter list, parse the directives, validate with
`checkKeys` — returning its error before any merging — then let
`combineMetadataAndValues` mutate the declared parameters in place (section
lists share the same `*Parameter` pointers, so they see the same mutations;
the synthesized Skip entries stay in the merger's local slice, see
`combineMetadataAndValuesCaller`). -/
def getParsedMetadataE (tree : YamlValue) (lines : List SrcLine) :
    List Effect × Except String Metadata :=
  let values := createValuesObject tree
  let md := parseMetadataComments lines
  let ck := checkKeysRes values md.Parameters
  match ck.2 with
  | .error e => (ck.1, .error e)
  | .ok _ =>
    (ck.1, .ok { md with
      Parameters := combineMetadataAndValuesCaller values md.Parameters,
      Sections := md.Sections.map
        (fun s => { s with Parameters := combineMetadataAndValuesCaller values s.Parameters }) })

/-- `runReadmeGenerator` from `main.go` (flag handling and config loading
elided: the config is passed in; `readmeDoc` is the README's lines when
`--readme` was given, `wantSchema` tells whether `--schema` was given).
Returns the effect trace and the final result: any error from
`getParsedMetadata` or `insertReadmeTable` aborts before the corresponding
writes. -/
def runReadmeGenerator (cfg : Config) (tree : YamlValue) (lines : List SrcLine)
    (readmeDoc : Option (List String)) (wantSchema : Bool) :
    List Effect × Except String Unit :=
  match getParsedMetadataE tree lines with
  | (effs, .error e) => (effs, .error e)
  | (effs, .ok md) =>
    let afterReadme : List Effect × Except String Unit :=
      match readmeDoc with
      | none => (effs, .ok ())
      | some doc =>
        let secs := md.Sections.map
          (fun s => { s with Parameters := buildParamsToRender s.Parameters cfg })
        match insertReadmeTable doc secs cfg with
        | .error e => (effs, .error e)
        | .ok newDoc =>
          (effs ++ [.writeReadme (String.intercalate "\n" newDoc), .print "README updated ✅"], .ok ())
    match afterReadme.2 with
    | .error e => (afterReadme.1, .error e)
    | .ok _ =>
      if wantSchema then
        let _ := buildParamsToRender md.Parameters cfg
        (afterReadme.1 ++ [.writeSchema, .print "Schema generated ✅"], .ok ())
      else afterReadme

/-- Role-changing operations available on a `Parameter` after construction
(`SetSkip` with either argument, `SetExtra` with either argument); every
mutation of the two role flags in `main.go` goes through one of these. -/
inductive RoleOp where
  | roleSkip (b : Bool)
  | roleExtra (b : Bool)

/-- Application of one role operation. -/
def applyRoleOp (p : Parameter) : RoleOp → Parameter
  | .roleSkip b => p.SetSkip b
  | .roleExtra b => p.SetExtra b

/-- The three reachable role-flag combinations: Normal `(true,true)`, Skip
`(false,false)`, Extra `(false,true)`. -/
def roleOK (p : Parameter) : Prop :=
  (p.Validate = true ∧ p.Readme = true) ∨ (p.Validate = false ∧ p.Readme = false) ∨
    (p.Validate = false ∧ p.Readme = true)

lemma roleOK_applyRoleOp (p : Parameter) (op : RoleOp) (h : roleOK p) :
    roleOK (applyRoleOp p op) := by
  cases op with
  | roleSkip b =>
    cases b <;> simp [applyRoleOp, Parameter.SetSkip, roleOK]
  | roleExtra b =>
    cases b
    · simpa [applyRoleOp, Parameter.SetExtra] using h
    · simp [applyRoleOp, Parameter.SetExtra, roleOK]

lemma roleOK_foldl (ops : List RoleOp) (p : Parameter) (h : roleOK p) :
    roleOK (ops.foldl applyRoleOp p) := by
  induction ops generalizing p with
  | nil => exact h
  | cons op rest ih => exact ih _ (roleOK_applyRoleOp p op h)

/-- C8: every Parameter produced by construction followed by any sequence of
role operations (marking Skip, marking Extra, unmarking Skip) has its two
flags in one of exactly the three combinations Normal `(true,true)`, Skip
`(false,false)`, Extra `(false,true)`; the combination `(true,false)` is
never producible. -/
theorem C8_role_flags_invariant (name : String) (ops : List RoleOp) :
    roleOK (ops.foldl applyRoleOp (NewParameter name)) ∧
    ¬((ops.foldl applyRoleOp (NewParameter name)).Validate = true ∧
       (ops.foldl applyRoleOp (NewParameter name)).Readme = false) := by
  have h := roleOK_foldl ops (NewParameter name) (by simp [roleOK, NewParameter])
  refine ⟨h, ?_⟩
  rcases h with ⟨h1, h2⟩ | ⟨h1, h2⟩ | ⟨h1, h2⟩ <;> simp [h1, h2]

/-- C6 counterexample: the coarse type the code infers for a null value is
the string "nil", which is not an element of the claimed set
(null, string, boolean, number, array, object, unknown). -/
theorem C6_counterexample :
    inferType YamlValue.null ∉
      (["null", "string", "boolean", "number", "array", "object", "unknown"] : List String) := by
  decide

/-- C6 (amended): every inferred coarse type is one of exactly
nil, string, boolean, number, array, object, unknown — the code spells the
null kind "nil" — and all integer and float forms collapse to "number". -/
theorem C6_inferType_range :
    (∀ v : YamlValue, inferType v ∈
      (["nil", "string", "boolean", "number", "array", "object", "unknown"] : List String)) ∧
    (∀ n : Int, inferType (.int n) = "number") ∧
    (∀ lit : String, inferType (.float lit) = "number") := by
  refine ⟨fun v => ?_, fun n => rfl, fun lit => rfl⟩
  cases v <;> simp [inferType]

/-- C3: the modifier engine is order-sensitive — on a parameter with no prior
value, `[array, nullable]` forces type "array" and leaves the value as the
null sentinel string "nil" (the array branch does not clear the value because
`nullable` is last), while `[nullable, array]` forces type "array" with the
empty sequence as value (the array branch overwrites the sentinel installed
by `nullable`). -/
theorem C3_modifier_order_sensitivity :
    (∀ p : Parameter, p.Value = .null → p.Modifiers = ["array", "nullable"] →
      (applyModifiers p defaultConfig).type = "array" ∧
      (applyModifiers p defaultConfig).Value = .str "nil") ∧
    (∀ p : Parameter, p.Value = .null → p.Modifiers = ["nullable", "array"] →
      (applyModifiers p defaultConfig).type = "array" ∧
      (applyModifiers p defaultConfig).Value = .arr []) := by
  constructor <;> intro p hv hm <;>
    simp [applyModifiers, hm, hv, Parameter.HasModifier, applyModStep, modTypeStep,
      modValStep, defaultConfig, YamlValue.isNull,
      show ("nullable" : String) ≠ "array" from by decide,
      show ("nullable" : String) ≠ "object" from by decide,
      show ("nullable" : String) ≠ "string" from by decide,
      show ("array" : String) ≠ "nullable" from by decide]

/-- Witness for C3 at a concrete parameter. -/
theorem C3_modifier_order_sensitivity_witness :
    ((applyModifiers { NewParameter "a" with Modifiers := ["array", "nullable"] } defaultConfig).type = "array" ∧
     (applyModifiers { NewParameter "a" with Modifiers := ["array", "nullable"] } defaultConfig).Value = .str "nil") ∧
    ((applyModifiers { NewParameter "a" with Modifiers := ["nullable", "array"] } defaultConfig).type = "array" ∧
     (applyModifiers { NewParameter "a" with Modifiers := ["nullable", "array"] } defaultConfig).Value = .arr []) :=
  ⟨C3_modifier_order_sensitivity.1 _ rfl rfl, C3_modifier_order_sensitivity.2 _ rfl rfl⟩

/-- C1 counterexample: on the input tree with `x: [1,2]` and no directives,
the pipeline does NOT report success — `checkKeys` runs before any Merger
synthesis and fails with the aggregate validation error. -/
theorem C1_counterexample :
    (getParsedMetadataE (.obj [("x", .arr [.int 1, .int 2])]) []).2 =
      Except.error "metadata errors found" := rfl

/-- C1 (amended): on the input tree with `x: [1,2]` and no directives, the
full run fails before producing any output: it prints exactly one missing-key
report for `x[0]` and one for `x[1]`, returns the aggregate validation error,
and writes neither the README nor the schema. -/
theorem C1_run_fails_without_directives :
    (runReadmeGenerator defaultConfig (.obj [("x", .arr [.int 1, .int 2])]) []
        (some ["## Parameters"]) true).1 =
      [Effect.print "ERROR: Missing metadata for key: x[0]",
       Effect.print "ERROR: Missing metadata for key: x[1]"] ∧
    (runReadmeGenerator defaultConfig (.obj [("x", .arr [.int 1, .int 2])]) []
        (some ["## Parameters"]) true).2 = Except.error "metadata errors found" := by
  constructor <;> rfl

lemma mem_realKeysOf {real meta : List Parameter} {name : String} :
    name ∈ realKeysOf real meta ↔
      (isSkipped (skipNamesOf meta) name = false ∧
        ∃ q ∈ real, q.Name = name ∧ q.Extra = false) := by
  unfold realKeysOf
  rw [List.mem_map]
  constructor
  · rintro ⟨p, hp, rfl⟩
    rw [List.mem_filter] at hp
    obtain ⟨hmem, hf⟩ := hp
    have h1 : isSkipped (skipNamesOf meta) p.Name = false ∧ p.Extra = false := by
      revert hf
      cases isSkipped (skipNamesOf meta) p.Name <;> cases p.Extra <;> simp
    exact ⟨h1.1, p, hmem, rfl, h1.2⟩
  · rintro ⟨hsk, q, hq, rfl, hx⟩
    exact ⟨q, List.mem_filter.2 ⟨hq, by simp [hsk, hx]⟩, rfl⟩

lemma mem_metaKeysOf {real meta : List Parameter} {name : String} :
    name ∈ metaKeysOf real meta ↔
      (isSkipped (skipNamesOf meta) name = false ∧
        ∃ q ∈ meta, q.Name = name ∧ q.Extra = false) := by
  unfold metaKeysOf
  rw [List.mem_map]
  constructor
  · rintro ⟨p, hp, rfl⟩
    rw [List.mem_filter] at hp
    obtain ⟨hmem, hf⟩ := hp
    have h1 : p.Extra = false ∧ isSkipped (skipNamesOf meta) p.Name = false := by
      revert hf
      cases isSkipped (skipNamesOf meta) p.Name <;> cases p.Extra <;> simp
    exact ⟨h1.2, p, hmem, rfl, h1.1⟩
  · rintro ⟨hsk, q, hq, rfl, hx⟩
    exact ⟨q, List.mem_filter.2 ⟨hq, by simp [hsk, hx]⟩, rfl⟩

lemma mem_missingKeys {real meta : List Parameter} {name : String} :
    name ∈ missingKeys real meta ↔
      name ∈ realKeysOf real meta ∧ name ∉ metaKeysOf real meta := by
  unfold missingKeys difference
  rw [List.mem_filter]
  simp

lemma mem_orphanKeys {real meta : List Parameter} {name : String} :
    name ∈ orphanKeys real meta ↔
      name ∈ metaKeysOf real meta ∧ name ∉ realKeysOf real meta := by
  unfold orphanKeys difference
  rw [List.mem_filter]
  simp

lemma mem_skipNamesOf {meta : List Parameter} {q : Parameter} (hq : q ∈ meta)
    (h : q.Skip = true ∨ q.Modifiers ≠ []) :
    sanitizeProperty q.Name ∈ skipNamesOf meta := by
  unfold skipNamesOf
  refine List.mem_map_of_mem _ (List.mem_filter.2 ⟨hq, ?_⟩)
  rcases h with h | h
  · simp [h]
  · cases hM : q.Modifiers with
    | nil => exact absurd hM h
    | cons a l => simp [hM]

/-- C4: the reconciliation skip rule — a path is under skip-name `s` iff it
equals `s` or continues it with `.` or `[`; every Skip-declared or
modifier-carrying parameter contributes its (sanitized) name to the skip set;
the real-key and declared-key sets contain exactly the non-Extra entry names
not under a skip name; consequently a path under a skip name is in neither
the missing nor the orphan report, at any depth. -/
theorem C4_skip_subtree_rule (real meta : List Parameter) (name : String) :
    (isSkipped (skipNamesOf meta) name = true ↔
      ∃ s ∈ skipNamesOf meta, name = s ∨
        hasPrefixB name (s ++ ".") = true ∨ hasPrefixB name (s ++ "[") = true) ∧
    (∀ q ∈ meta, (q.Skip = true ∨ q.Modifiers ≠ []) →
      sanitizeProperty q.Name ∈ skipNamesOf meta) ∧
    (name ∈ realKeysOf real meta ↔
      (isSkipped (skipNamesOf meta) name = false ∧
        ∃ q ∈ real, q.Name = name ∧ q.Extra = false)) ∧
    (name ∈ metaKeysOf real meta ↔
      (isSkipped (skipNamesOf meta) name = false ∧
        ∃ q ∈ meta, q.Name = name ∧ q.Extra = false)) ∧
    (isSkipped (skipNamesOf meta) name = true →
      name ∉ missingKeys real meta ∧ name ∉ orphanKeys real meta) := by
  refine ⟨?_, fun q hq h => mem_skipNamesOf hq h, mem_realKeysOf, mem_metaKeysOf, fun hsk => ⟨?_, ?_⟩⟩
  · unfold isSkipped
    rw [List.any_eq_true]
    constructor
    · rintro ⟨s, hs, hcond⟩
      refine ⟨s, hs, ?_⟩
      revert hcond
      simp [beq_iff_eq]
      tauto
    · rintro ⟨s, hs, hcond⟩
      refine ⟨s, hs, ?_⟩
      simp [beq_iff_eq]
      tauto
  · intro hmem
    rcases mem_missingKeys.1 hmem with ⟨hr, -⟩
    rcases mem_realKeysOf.1 hr with ⟨hf, -⟩
    rw [hsk] at hf
    exact Bool.true_eq_false ▸ hf
  · intro hmem
    rcases mem_orphanKeys.1 hmem with ⟨hr, -⟩
    rcases mem_metaKeysOf.1 hr with ⟨hf, -⟩
    rw [hsk] at hf
    exact Bool.true_eq_false ▸ hf

/-- Witness for C4: with `@skip db` declared and a real subtree under `db`,
the descendant path `db.host` lands in neither mismatch report. -/
theorem C4_skip_subtree_rule_witness :
    "db.host" ∉ missingKeys
        [{ NewParameter "db.host" with Value := .str "h", type := "string" }]
        [(NewParameter "db").SetSkip true] ∧
    "db.host" ∉ orphanKeys
        [{ NewParameter "db.host" with Value := .str "h", type := "string" }]
        [(NewParameter "db").SetSkip true] :=
  (C4_skip_subtree_rule
      [{ NewParameter "db.host" with Value := .str "h", type := "string" }]
      [(NewParameter "db").SetSkip true] "db.host").2.2.2.2 (by decide)

/-- The error report printed by `checkKeys` when validation fails: one line
per missing key, then one line per orphan key. -/
def errorReportEffects (real meta : List Parameter) : List Effect :=
  (missingKeys real meta).map (fun m => .print ("ERROR: Missing metadata for key: " ++ m)) ++
    (orphanKeys real meta).map (fun o => .print ("ERROR: Metadata provided for non existing key: " ++ o))

lemma checkKeysRes_of_mismatch (real meta : List Parameter)
    (h : missingKeys real meta ≠ [] ∨ orphanKeys real meta ≠ []) :
    checkKeysRes real meta = (errorReportEffects real meta, .error "metadata errors found") := by
  unfold checkKeysRes errorReportEffects
  have hb : ((missingKeys real meta).isEmpty && (orphanKeys real meta).isEmpty) = false := by
    rcases h with h | h
    · cases hm : missingKeys real meta with
      | nil => exact absurd hm h
      | cons a l => simp [hm]
    · cases hm : orphanKeys real meta with
      | nil => exact absurd hm h
      | cons a l => simp [hm]
  simp [hb]

lemma getParsedMetadataE_of_mismatch (tree : YamlValue) (lines : List SrcLine)
    (h : missingKeys (createValuesObject tree) (parseMetadataComments lines).Parameters ≠ [] ∨
      orphanKeys (createValuesObject tree) (parseMetadataComments lines).Parameters ≠ []) :
    getParsedMetadataE tree lines =
      (errorReportEffects (createValuesObject tree) (parseMetadataComments lines).Parameters,
       .error "metadata errors found") := by
  unfold getParsedMetadataE
  simp only [checkKeysRes_of_mismatch _ _ h]

/-- C5: whenever reconciliation finds a non-empty missing or orphan set, the
run's effect trace contains one printed report per missing path and one per
orphan path, the run ends with the single aggregate validation error, and
neither the README document nor the schema file is written. -/
theorem C5_mismatch_reports_and_no_output (cfg : Config) (tree : YamlValue)
    (lines : List SrcLine) (readmeDoc : Option (List String)) (wantSchema : Bool)
    (h : missingKeys (createValuesObject tree) (parseMetadataComments lines).Parameters ≠ [] ∨
      orphanKeys (createValuesObject tree) (parseMetadataComments lines).Parameters ≠ []) :
    (runReadmeGenerator cfg tree lines readmeDoc wantSchema).2 =
        .error "metadata errors found" ∧
    (∀ m ∈ missingKeys (createValuesObject tree) (parseMetadataComments lines).Parameters,
      Effect.print ("ERROR: Missing metadata for key: " ++ m) ∈
        (runReadmeGenerator cfg tree lines readmeDoc wantSchema).1) ∧
    (∀ o ∈ orphanKeys (createValuesObject tree) (parseMetadataComments lines).Parameters,
      Effect.print ("ERROR: Metadata provided for non existing key: " ++ o) ∈
        (runReadmeGenerator cfg tree lines readmeDoc wantSchema).1) ∧
    (∀ e ∈ (runReadmeGenerator cfg tree lines readmeDoc wantSchema).1,
      (∀ s, e ≠ Effect.writeReadme s) ∧ e ≠ Effect.writeSchema) := by
  have hrun : runReadmeGenerator cfg tree lines readmeDoc wantSchema =
      (errorReportEffects (createValuesObject tree) (parseMetadataComments lines).Parameters,
       .error "metadata errors found") := by
    unfold runReadmeGenerator
    rw [getParsedMetadataE_of_mismatch tree lines h]
  rw [hrun]
  refine ⟨rfl, ?_, ?_, ?_⟩
  · intro m hm
    exact List.mem_append_left _ (List.mem_map_of_mem _ hm)
  · intro o ho
    exact List.mem_append_right _ (List.mem_map_of_mem _ ho)
  · intro e he
    rcases List.mem_append.1 he with h' | h' <;>
      rcases List.mem_map.1 h' with ⟨x, -, rfl⟩ <;>
      exact ⟨fun s hc => Effect.noConfusion hc, fun hc => Effect.noConfusion hc⟩

/-- Witness for C5: a one-key tree with no directives yields a missing-key
mismatch, the aggregate error and no writes. -/
theorem C5_mismatch_reports_and_no_output_witness :
    (runReadmeGenerator defaultConfig (.obj [("a", .int 1)]) [] none false).2 =
        .error "metadata errors found" ∧
    (∀ m ∈ missingKeys (createValuesObject (.obj [("a", .int 1)]))
        (parseMetadataComments []).Parameters,
      Effect.print ("ERROR: Missing metadata for key: " ++ m) ∈
        (runReadmeGenerator defaultConfig (.obj [("a", .int 1)]) [] none false).1) ∧
    (∀ o ∈ orphanKeys (createValuesObject (.obj [("a", .int 1)]))
        (parseMetadataComments []).Parameters,
      Effect.print ("ERROR: Metadata provided for non existing key: " ++ o) ∈
        (runReadmeGenerator defaultConfig (.obj [("a", .int 1)]) [] none false).1) ∧
    (∀ e ∈ (runReadmeGenerator defaultConfig (.obj [("a", .int 1)]) [] none false).1,
      (∀ s, e ≠ Effect.writeReadme s) ∧ e ≠ Effect.writeSchema) :=
  C5_mismatch_reports_and_no_output defaultConfig (.obj [("a", .int 1)]) [] none false
    (by left; decide)

/-- C2 evaluated at the failing input (`@skip x` over the tree `x.y: 1`):
the merger's local slice does synthesize the implicit Skip entry for the
undeclared real key `x.y` (with its value), but the caller-visible
authoritative metadata list — the one `getParsedMetadata` returns for the
renderers — still contains only the declared `x` entry, so the synthesized
entry is silently lost in the local copy. -/
theorem C2_synthesized_skips_lost_in_local_copy :
    ((getParsedMetadataE (.obj [("x", .obj [("y", .int 1)])]) [.skipL "x"]).2.map
        (fun md => md.Parameters.map (fun p => p.Name))) = .ok ["x"] ∧
    (combineMetadataAndValuesLocal
        (createValuesObject (.obj [("x", .obj [("y", .int 1)])]))
        (parseMetadataComments [.skipL "x"]).Parameters).map
        (fun p => (p.Name, p.Skip, p.Value)) =
      [("x", true, .null), ("x.y", true, .int 1)] ∧
    ∀ q ∈ combineMetadataAndValuesCaller
        (createValuesObject (.obj [("x", .obj [("y", .int 1)])]))
        (parseMetadataComments [.skipL "x"]).Parameters, q.Name ≠ "x.y" := by
  refine ⟨rfl, rfl, ?_⟩
  intro q hq
  have hn : (combineMetadataAndValuesCaller
      (createValuesObject (.obj [("x", .obj [("y", .int 1)])]))
      (parseMetadataComments [.skipL "x"]).Parameters).map (fun p => p.Name) = ["x"] := rfl
  have hq' := List.mem_map_of_mem (fun p : Parameter => p.Name) hq
  rw [hn] at hq'
  simp only [List.mem_singleton] at hq'
  intro hc
  rw [hc] at hq'
  exact (by decide : ¬("x.y" : String) = "x") hq'

lemma foldl_max_le (l : List Nat) (a : Nat) :
    a ≤ l.foldl max a ∧ ∀ x ∈ l, x ≤ l.foldl max a := by
  induction l generalizing a with
  | nil => simp
  | cons b t ih =>
    obtain ⟨h1, h2⟩ := ih (max a b)
    rw [List.foldl_cons]
    refine ⟨le_trans (le_max_left a b) h1, ?_⟩
    intro x hx
    rcases List.mem_cons.1 hx with rfl | hx
    · exact le_trans (le_max_right a x) h1
    · exact h2 x hx

lemma foldl_max_attained (l : List Nat) (a : Nat) :
    l.foldl max a = a ∨ l.foldl max a ∈ l := by
  induction l generalizing a with
  | nil => simp
  | cons b t ih =>
    rw [List.foldl_cons]
    rcases ih (max a b) with h | h
    · rw [h]
      rcases Nat.le_total a b with hab | hba
      · right
        rw [Nat.max_eq_right hab]
        exact List.mem_cons_self b t
      · left
        exact Nat.max_eq_left hba
    · right
      exact List.mem_cons_of_mem b h

lemma colWidth_eq_foldl_max (rows : List (List String)) (j : Nat) :
    colWidth rows j = (rows.map (fun r => (r.getD j "").length)).foldl max 0 := by
  unfold colWidth
  rw [List.foldl_map]

lemma padCell_length_of_le {c : String} {w : Nat} (h : c.length ≤ w) :
    (padCell c w).length = w := by
  unfold padCell
  rw [String.length_append]
  have hm : (String.mk (List.replicate (w - c.length) ' ')).length = w - c.length := by
    show (List.replicate (w - c.length) ' ').length = w - c.length
    exact List.length_replicate _ _
  rw [hm]
  omega

/-- C9: in every generated Markdown table, each column's width (as computed
by the rendering code) equals the maximum rendered cell text length in that
column over all rows, the header row included, and every cell padded to that
width has exactly that length — so the pipe separators align. -/
theorem C9_column_width_is_max (params : List Parameter) (j : Nat) :
    (∀ r ∈ tableRows params, (r.getD j "").length ≤ colWidth (tableRows params) j) ∧
    (∃ r ∈ tableRows params, (r.getD j "").length = colWidth (tableRows params) j) ∧
    (∀ r ∈ tableRows params,
      (padCell (r.getD j "") (colWidth (tableRows params) j)).length =
        colWidth (tableRows params) j) := by
  have hle : ∀ r ∈ tableRows params,
      (r.getD j "").length ≤ colWidth (tableRows params) j := by
    intro r hr
    rw [colWidth_eq_foldl_max]
    exact (foldl_max_le _ 0).2 _ (List.mem_map_of_mem _ hr)
  refine ⟨hle, ?_, fun r hr => padCell_length_of_le (hle r hr)⟩
  rcases foldl_max_attained
      ((tableRows params).map (fun r => (r.getD j "").length)) 0 with h | h
  · refine ⟨["Name", "Description", "Value"], List.mem_cons_self _ _, ?_⟩
    have hb := hle ["Name", "Description", "Value"] (List.mem_cons_self _ _)
    rw [colWidth_eq_foldl_max, h] at hb ⊢
    omega
  · rcases List.mem_map.1 h with ⟨r, hr, hlen⟩
    exact ⟨r, hr, by rw [colWidth_eq_foldl_max]; exact hlen⟩

lemma modTypeStep_classify (cfg : Config) (m : String) :
    (∃ c, ∀ t, modTypeStep cfg m t = c) ∨ (∀ t, modTypeStep cfg m t = t) := by
  unfold modTypeStep
  by_cases h1 : (m == cfg.modArray) = true
  · exact .inl ⟨"array", fun t => by simp [h1]⟩
  · by_cases h2 : (m == cfg.modObject) = true
    · exact .inl ⟨"object", fun t => by simp [h1, h2]⟩
    · by_cases h3 : (m == cfg.modString) = true
      · exact .inl ⟨"string", fun t => by simp [h1, h2, h3]⟩
      · exact .inr (fun t => by simp [h1, h2, h3])

lemma modValStep_classify (cfg : Config) (nl : Bool) (m : String) :
    (∃ c, c.isNull = false ∧ ∀ v, modValStep cfg nl m v = c) ∨
    (∀ v, modValStep cfg nl m v = v) ∨
    (∀ v, modValStep cfg nl m v = if v.isNull then .str "nil" else v) := by
  unfold modValStep
  by_cases h1 : (m == cfg.modArray) = true
  · cases nl with
    | false => exact .inl ⟨.arr [], rfl, fun v => by simp [h1]⟩
    | true => exact .inr (.inl (fun v => by simp [h1]))
  · by_cases h2 : (m == cfg.modObject) = true
    · cases nl with
      | false => exact .inl ⟨.obj [], rfl, fun v => by simp [h1, h2]⟩
      | true => exact .inr (.inl (fun v => by simp [h1, h2]))
    · by_cases h3 : (m == cfg.modString) = true
      · cases nl with
        | false => exact .inl ⟨.str "", rfl, fun v => by simp [h1, h2, h3]⟩
        | true => exact .inr (.inl (fun v => by simp [h1, h2, h3]))
      · by_cases h4 : (m == cfg.modNullable) = true
        · exact .inr (.inr (fun v => by simp [h1, h2, h3, h4]))
        · by_cases h5 : hasPrefixB m (cfg.modDefault ++ ":") = true
          · exact .inl ⟨.str (String.trim (String.mk (m.data.drop (cfg.modDefault ++ ":").length))),
              rfl, fun v => by simp [h1, h2, h3, h4, h5]⟩
          · exact .inr (.inl (fun v => by simp [h1, h2, h3, h4, h5]))

lemma foldl_indep_or_id {α : Type} (f : α → String → α)
    (hf : ∀ m, (∃ c, ∀ a, f a m = c) ∨ (∀ a, f a m = a)) :
    ∀ (l : List String) (a : α), (∀ b, l.foldl f b = l.foldl f a) ∨ l.foldl f a = a := by
  intro l
  induction l with
  | nil => intro a; right; rfl
  | cons m t ih =>
    intro a
    rcases hf m with ⟨c, hc⟩ | hid
    · left
      intro b
      rw [List.foldl_cons, List.foldl_cons, hc, hc]
    · rw [List.foldl_cons, hid a]
      rcases ih a with h | h
      · left
        intro b
        rw [List.foldl_cons, hid b]
        exact h b
      · right
        exact h

lemma foldl_idem_of_indep {α : Type} (f : α → String → α)
    (hf : ∀ m, (∃ c, ∀ a, f a m = c) ∨ (∀ a, f a m = a)) (l : List String) (a : α) :
    l.foldl f (l.foldl f a) = l.foldl f a := by
  rcases foldl_indep_or_id f hf l a with h | h
  · exact h _
  · rw [h]
    exact h

lemma foldl_val_nonnull (g : YamlValue → String → YamlValue)
    (hg : ∀ m, (∃ c, c.isNull = false ∧ ∀ v, g v m = c) ∨ (∀ v, g v m = v) ∨
      (∀ v, g v m = if v.isNull then .str "nil" else v)) :
    ∀ (l : List String) (v : YamlValue), l.foldl g v = v ∨ (l.foldl g v).isNull = false := by
  intro l
  induction l with
  | nil => intro v; left; rfl
  | cons m t ih =>
    intro v
    rw [List.foldl_cons]
    rcases hg m with ⟨c, hcn, hc⟩ | hid | hnul
    · rw [hc]
      rcases ih c with h | h
      · right; rw [h]; exact hcn
      · right; exact h
    · rw [hid]
      exact ih v
    · rw [hnul]
      by_cases hv : v.isNull = true
      · rw [if_pos hv]
        rcases ih (.str "nil") with h | h
        · right; rw [h]; rfl
        · right; exact h
      · rw [if_neg hv]
        exact ih v

lemma foldl_val_idem (g : YamlValue → String → YamlValue)
    (hg : ∀ m, (∃ c, c.isNull = false ∧ ∀ v, g v m = c) ∨ (∀ v, g v m = v) ∨
      (∀ v, g v m = if v.isNull then .str "nil" else v)) :
    ∀ (l : List String) (v : YamlValue), l.foldl g (l.foldl g v) = l.foldl g v := by
  intro l
  induction l with
  | nil => intro v; rfl
  | cons m t ih =>
    intro v
    rw [List.foldl_cons, List.foldl_cons]
    rcases hg m with ⟨c, hcn, hc⟩ | hid | hnul
    · rw [hc v, hc]
    · rw [hid v, hid]
      exact ih v
    · rw [hnul v]
      have hv0n : (if v.isNull then YamlValue.str "nil" else v).isNull = false := by
        cases hb : v.isNull with
        | true => simp [YamlValue.isNull]
        | false => simp [hb]
      have hR : (t.foldl g (if v.isNull then YamlValue.str "nil" else v)).isNull = false := by
        rcases foldl_val_nonnull g hg t (if v.isNull then YamlValue.str "nil" else v) with h | h
        · rw [h]; exact hv0n
        · exact h
      rw [hnul]
      rw [if_neg (by rw [hR]; exact Bool.false_ne_true)]
      exact ih (if v.isNull then YamlValue.str "nil" else v)

lemma foldl_applyModStep_pair (cfg : Config) (nl : Bool) (l : List String)
    (t : String) (v : YamlValue) :
    l.foldl (applyModStep cfg nl) (t, v) =
      (l.foldl (fun a m => modTypeStep cfg m a) t,
       l.foldl (fun a m => modValStep cfg nl m a) v) := by
  induction l generalizing t v with
  | nil => rfl
  | cons m rest ih =>
    rw [List.foldl_cons, List.foldl_cons, List.foldl_cons]
    exact ih _ _

/-- C10: the modifier engine is idempotent — applying `applyModifiers` twice
to the same parameter with the same settings yields the same parameter state
(type and value) as applying it once. -/
theorem C10_applyModifiers_idempotent (p : Parameter) (cfg : Config) :
    applyModifiers (applyModifiers p cfg) cfg = applyModifiers p cfg := by
  unfold applyModifiers
  by_cases hM : p.Modifiers.isEmpty = true
  · simp [hM]
  · simp only [hM, if_false, Bool.false_eq_true]
    obtain ⟨n, d, v, t, mods, sec, va, re, sc⟩ := p
    simp only [Parameter.HasModifier]
    simp only [foldl_applyModStep_pair]
    rw [foldl_idem_of_indep _ (fun m => modTypeStep_classify cfg m) mods t,
       foldl_val_idem _ (fun m => modValStep_classify cfg _ m) mods v]

/-- Witness for C6 at concrete values. -/
theorem C6_inferType_range_witness :
    inferType (.bool true) ∈
      (["nil", "string", "boolean", "number", "array", "object", "unknown"] : List String) ∧
    inferType (.int 5) = "number" ∧ inferType (.float "1.5") = "number" :=
  ⟨C6_inferType_range.1 (.bool true), C6_inferType_range.2.1 5, C6_inferType_range.2.2 "1.5"⟩

/-- Witness for C8 at a concrete operation sequence. -/
theorem C8_role_flags_invariant_witness :
    roleOK ([RoleOp.roleSkip true, RoleOp.roleExtra true, RoleOp.roleSkip false].foldl
      applyRoleOp (NewParameter "p")) ∧
    ¬(([RoleOp.roleSkip true, RoleOp.roleExtra true, RoleOp.roleSkip false].foldl
        applyRoleOp (NewParameter "p")).Validate = true ∧
      ([RoleOp.roleSkip true, RoleOp.roleExtra true, RoleOp.roleSkip false].foldl
        applyRoleOp (NewParameter "p")).Readme = false) :=
  C8_role_flags_invariant "p" [RoleOp.roleSkip true, RoleOp.roleExtra true, RoleOp.roleSkip false]

/-- Witness for C9 at a concrete one-row table and the name column. -/
theorem C9_column_width_is_max_witness :
    (∀ r ∈ tableRows [{ NewParameter "a.b" with Value := .int 1, type := "number" }],
      (r.getD 0 "").length ≤
        colWidth (tableRows [{ NewParameter "a.b" with Value := .int 1, type := "number" }]) 0) ∧
    (∃ r ∈ tableRows [{ NewParameter "a.b" with Value := .int 1, type := "number" }],
      (r.getD 0 "").length =
        colWidth (tableRows [{ NewParameter "a.b" with Value := .int 1, type := "number" }]) 0) ∧
    (∀ r ∈ tableRows [{ NewParameter "a.b" with Value := .int 1, type := "number" }],
      (padCell (r.getD 0 "")
          (colWidth (tableRows [{ NewParameter "a.b" with Value := .int 1, type := "number" }]) 0)).length =
        colWidth (tableRows [{ NewParameter "a.b" with Value := .int 1, type := "number" }]) 0) :=
  C9_column_width_is_max [{ NewParameter "a.b" with Value := .int 1, type := "number" }] 0

/-- Witness for C10 at a concrete parameter and the default settings. -/
theorem C10_applyModifiers_idempotent_witness :
    applyModifiers
        (applyModifiers { NewParameter "a" with Modifiers := ["nullable", "array"] } defaultConfig)
        defaultConfig =
      applyModifiers { NewParameter "a" with Modifiers := ["nullable", "array"] } defaultConfig :=
  C10_applyModifiers_idempotent
    { NewParameter "a" with Modifiers := ["nullable", "array"] } defaultConfig

/-- C7 counterexample: for the Extra declaration of the path "foo" over a
real tree in which `foo` exists (an empty mapping, recorded as a real
flattened entry), the declaring parameter is Extra, yet its path lands in the
missing mismatch list — the real-side Extra filter of `checkKeys` tests the
real entry's own never-set flag — one missing-key report is printed and the
run fails, contradicting the claim that an Extra parameter appears in
neither mismatch list. -/
theorem C7_counterexample :
    (parseMetadataComments [.extraL "foo" "" ""]).Parameters.map (fun p => p.Extra) = [true] ∧
    "foo" ∈ missingKeys (createValuesObject (.obj [("foo", .obj [])]))
      (parseMetadataComments [.extraL "foo" "" ""]).Parameters ∧
    (getParsedMetadataE (.obj [("foo", .obj [])]) [.extraL "foo" "" ""]).1 =
      [Effect.print "ERROR: Missing metadata for key: foo"] ∧
    (getParsedMetadataE (.obj [("foo", .obj [])]) [.extraL "foo" "" ""]).2 =
      Except.error "metadata errors found" :=
  ⟨rfl, by decide, rfl, rfl⟩

/-- C7 (amended): an Extra-role declared parameter always renders with an
empty value cell, and it is excluded from the declared-key set, so — when
every declaration sharing its path is Extra — its path never appears in the
orphan mismatch list; but it is not excluded from the real-key set: whenever
its path also occurs as a real flattened (hence non-Extra) entry that is not
under a skip name, that path does appear in the missing mismatch list. -/
theorem C7_extra_role_validation (real meta : List Parameter) (p : Parameter)
    (hx : p.Extra = true)
    (hmeta : ∀ q ∈ meta, q.Name = p.Name → q.Extra = true) :
    renderValueCell p = "" ∧
    p.Name ∉ metaKeysOf real meta ∧
    p.Name ∉ orphanKeys real meta ∧
    (∀ q ∈ real, q.Name = p.Name → q.Extra = false →
      isSkipped (skipNamesOf meta) p.Name = false →
      p.Name ∈ missingKeys real meta) := by
  have h2 : p.Name ∉ metaKeysOf real meta := by
    rw [mem_metaKeysOf]
    rintro ⟨-, q, hq, hn, hqx⟩
    rw [hmeta q hq hn] at hqx
    exact Bool.true_eq_false ▸ hqx
  refine ⟨by simp [renderValueCell, hx], h2, fun hm => h2 (mem_orphanKeys.1 hm).1, ?_⟩
  intro q hq hqn hqx hsk
  exact mem_missingKeys.2 ⟨mem_realKeysOf.2 ⟨hsk, q, hq, hqn, hqx⟩, h2⟩

/-- Witness for C7 at the counterexample's concrete input. -/
theorem C7_extra_role_validation_witness :
    renderValueCell (({ NewParameter "foo" with Value := .str "" }).SetExtra true) = "" ∧
    "foo" ∉ metaKeysOf (createValuesObject (.obj [("foo", .obj [])]))
      [({ NewParameter "foo" with Value := .str "" }).SetExtra true] ∧
    "foo" ∉ orphanKeys (createValuesObject (.obj [("foo", .obj [])]))
      [({ NewParameter "foo" with Value := .str "" }).SetExtra true] ∧
    (∀ q ∈ createValuesObject (.obj [("foo", .obj [])]), q.Name = "foo" → q.Extra = false →
      isSkipped (skipNamesOf [({ NewParameter "foo" with Value := .str "" }).SetExtra true]) "foo" = false →
      "foo" ∈ missingKeys (createValuesObject (.obj [("foo", .obj [])]))
        [({ NewParameter "foo" with Value := .str "" }).SetExtra true]) :=
  C7_extra_role_validation (createValuesObject (.obj [("foo", .obj [])]))
    [({ NewParameter "foo" with Value := .str "" }).SetExtra true]
    (({ NewParameter "foo" with Value := .str "" }).SetExtra true)
    (by decide) (by decide)
